import Mathlib

/-!
Verification of the securelog forward-secure dual-MAC logging core.

The Go source is shallowly embedded: byte strings are `List Nat`, the
SHA-256 and HMAC-SHA-256 primitives (which live in the Go standard
library, outside this repository) are abstracted into a `HashModel`
record, stateful code is explicit state passing, and fallible code
returns `Except`.  All definitions follow the Go functions they are
named after; the few definitions derived instead from the prose
specification say so in their doc comment.
-/

namespace SecureLog

/-- Byte strings (Go `[]byte`, `[32]byte`); each element is one octet. -/
abbrev Bytes := List Nat

/-- Abstract model of the cryptographic primitives used by the code:
`sha256` stands for Go's `sha256.Sum256`, `hmacSha256` for
`hmac.New(sha256.New, key)` run over a data stream.  The Go code treats
both as black boxes, so the embedding is parametric in them. -/
structure HashModel where
  sha256 : Bytes → Bytes
  hmacSha256 : Bytes → Bytes → Bytes

/-- Decidable equality for `Except`, so that model outcomes can be
evaluated on concrete inputs. -/
instance {ε α : Type} [DecidableEq ε] [DecidableEq α] :
    DecidableEq (Except ε α) := fun x y =>
  match x, y with
  | .ok a, .ok b =>
    if h : a = b then .isTrue (by rw [h])
    else .isFalse (by intro hh; cases hh; exact h rfl)
  | .ok _, .error _ => .isFalse (by intro hh; cases hh)
  | .error _, .ok _ => .isFalse (by intro hh; cases hh)
  | .error a, .error b =>
    if h : a = b then .isTrue (by rw [h])
    else .isFalse (by intro hh; cases hh; exact h rfl)

/-- The all-zero 32-byte array (`[32]byte{}` zero value). -/
def zero32 : Bytes := List.replicate 32 0

/-- `isZero32` from part_003: true iff every byte of the (32-byte) value
is zero, i.e. the value is the zero array. -/
def isZero32 (x : Bytes) : Bool := x == zero32

/-- `binary.BigEndian.PutUint64`: the 8-byte big-endian encoding. -/
def be64 (n : Nat) : Bytes :=
  [n / 2 ^ 56 % 256, n / 2 ^ 48 % 256, n / 2 ^ 40 % 256, n / 2 ^ 32 % 256,
   n / 2 ^ 24 % 256, n / 2 ^ 16 % 256, n / 2 ^ 8 % 256, n % 256]

/-- Go's `uint64(ts)` conversion of an `int64` nanosecond timestamp:
two's-complement reinterpretation, i.e. reduction mod 2^64. -/
def tsToU64 (ts : Int) : Nat := (ts % (2 ^ 64 : Int)).toNat

/-- Go `r.Index - 1` on `uint64` values: subtraction of 1 mod 2^64. -/
def sub64one (idx : Nat) : Nat := (idx + 2 ^ 64 - 1) % 2 ^ 64

/-- `fwdKey` (part_003): forward-secure key evolution `K_i = H(K_{i-1})`. -/
def fwdKey (m : HashModel) (k : Bytes) : Bytes := m.sha256 k

/-- `mac` (part_003): HMAC-SHA256 over the concatenation of the chunks. -/
def mac (m : HashModel) (key : Bytes) (chunks : List Bytes) : Bytes :=
  m.hmacSha256 key chunks.flatten

/-- `fold` (part_003): `SHA-256(prev ‖ tau)`. -/
def fold (m : HashModel) (prev tau : Bytes) : Bytes := m.sha256 (prev ++ tau)

/-- `htag` (part_003): `SHA-256(tau)`, used to initialise `μ_1`. -/
def htag (m : HashModel) (tau : Bytes) : Bytes := m.sha256 tau

/-- `constantTimeEqual` (part_006): length check, then OR of XORs. -/
def constantTimeEqual (a b : Bytes) : Bool :=
  if a.length ≠ b.length then false
  else ((a.zip b).foldl (fun acc p => acc ||| (p.1 ^^^ p.2)) 0) == 0

/-- `hmacEqual` (part_003) and Go's `hmac.Equal` have the same
length-check-then-XOR body as `constantTimeEqual`. -/
def hmacEqual (a b : Bytes) : Bool := constantTimeEqual a b

/-- The record persisted by the Store (`Record` in example_protobuf.go). -/
structure Record where
  index : Nat
  ts : Int
  msg : Bytes
  tagV : Bytes
  tagT : Bytes
deriving DecidableEq, Repr, Inhabited

/-- `TailState`: single-slot aggregate state of the most recent append. -/
structure TailState where
  index : Nat
  tagV : Bytes
  tagT : Bytes
deriving DecidableEq, Repr, Inhabited

/-- `Anchor`: checkpoint tuple `(Index, A_i, μ_V,i, μ_T,i)`. -/
structure Anchor where
  index : Nat
  key : Bytes
  tagV : Bytes
  tagT : Bytes
deriving DecidableEq, Repr, Inhabited

/-- `Entry`: the value returned to callers of `Append`. -/
structure Entry where
  index : Nat
  ts : Int
  msg : Bytes
  tag : Bytes
deriving DecidableEq, Repr, Inhabited

/-- In-memory state of the `Logger` struct (example_protobuf.go):
the anchor cadence from `cfg`, the entry counter `i`, the two evolving
chain keys and the two aggregate tags. -/
structure LoggerState where
  anchorEvery : Nat
  i : Nat
  keyV : Bytes
  keyT : Bytes
  tagV : Bytes
  tagT : Bytes
deriving DecidableEq, Repr

/-- `New` with caller-supplied seeds: `i = 0`, keys `A_0`, `B_0`, both
aggregate tags are the Go zero value of `[32]byte`. -/
def newLogger (anchorEvery : Nat) (a0 b0 : Bytes) : LoggerState :=
  ⟨anchorEvery, 0, a0, b0, zero32, zero32⟩

/-- The literal byte string `"START"`. -/
def START : Bytes := [83, 84, 65, 82, 84]

/-- The literal byte string `"CLOSE"`. -/
def CLOSE : Bytes := [67, 76, 79, 83, 69]

/-- Everything `Logger.Append` computes before calling `store.Append`:
the record, tail and optional anchor handed to the store, the logger
state committed on success, the logger state left behind on store
failure (`l.i--` restores `i`; the tags were not yet assigned; but the
keys were already evolved in place and are not restored), and the entry
returned on success. -/
structure AppendData where
  record : Record
  tail : TailState
  anchor : Option Anchor
  okLogger : LoggerState
  errLogger : LoggerState
  entry : Entry
deriving DecidableEq, Repr

/-- The body of `Logger.Append` (example_protobuf.go) up to and around
the `store.Append` call, as a pure function of the pre-call state. -/
def appendStep (m : HashModel) (l : LoggerState) (msg : Bytes) (ts : Int) :
    AppendData :=
  let i := l.i + 1
  let kV := fwdKey m l.keyV
  let kT := fwdKey m l.keyT
  let idx := be64 i
  let tsb := be64 (tsToU64 ts)
  let macV := mac m kV [idx, tsb, msg]
  let macT := mac m kT [idx, tsb, msg]
  let first := i == 1 && isZero32 l.tagV && isZero32 l.tagT
  let tagV := if first then htag m macV else fold m l.tagV macV
  let tagT := if first then htag m macT else fold m l.tagT macT
  let record : Record := ⟨i, ts, msg, tagV, tagT⟩
  let anchor : Option Anchor :=
    if l.anchorEvery != 0 && i % l.anchorEvery == 0 then
      some ⟨i, kV, tagV, tagT⟩
    else none
  let tail : TailState := ⟨i, tagV, tagT⟩
  { record := record
    tail := tail
    anchor := anchor
    okLogger := { l with i := i, keyV := kV, keyT := kT, tagV := tagV, tagT := tagT }
    errLogger := { l with keyV := kV, keyT := kT }
    entry := ⟨i, ts, msg, tagV⟩ }

/-- `Logger.Append` against an abstract store (`Store.Append` is the
supplied `storeAppend` transition).  On store failure the Go code does
`l.i--` and returns before assigning the tags, so `i` and both tags keep
their pre-call values while the in-place `fwdKey` mutations of the keys
survive; the store is unchanged. -/
def loggerAppend {σ ε : Type} (m : HashModel)
    (storeAppend : σ → Record → TailState → Option Anchor → Except ε σ)
    (l : LoggerState) (s : σ) (msg : Bytes) (ts : Int) :
    Except ε Entry × LoggerState × σ :=
  let d := appendStep m l msg ts
  match storeAppend s d.record d.tail d.anchor with
  | .error e => (.error e, d.errLogger, s)
  | .ok s' => (.ok d.entry, d.okLogger, s')

/-- `Logger.LastState`: `(i, μ_V,i, μ_T,i)`. -/
def lastState (l : LoggerState) : Nat × Bytes × Bytes := (l.i, l.tagV, l.tagT)

/-- `Logger.GetInitialKeys`: returns the *current* `keyV`/`keyT` fields
(the accessor is documented as returning `A_0` and `B_0`). -/
def getInitialKeys (l : LoggerState) : Bytes × Bytes := (l.keyV, l.keyT)

/-- Errors surfaced by the store models; `nonContiguous` is the
`"non-contiguous append"` error both concrete stores format. -/
inductive StoreErr where
  | nonContiguous
deriving DecidableEq, Repr

/-- Durable state of the file-backed store (file_store.go): the record
stream of `logs.dat` in file order, the anchor entries of `anchors.idx`
in file order, and the single-slot `tail.dat` (absent until first
written). -/
structure FileStoreState where
  recs : List Record
  anchors : List Anchor
  tail : Option TailState
deriving DecidableEq, Repr

/-- A freshly opened file store: all three files empty. -/
def emptyFileStore : FileStoreState := ⟨[], [], none⟩

/-- `fileStore.getLastIndexLocked`: the index of the last record in
`logs.dat`, `0` if the file is empty. -/
def getLastIndex (s : FileStoreState) : Nat :=
  match s.recs.getLast? with
  | none => 0
  | some r => r.index

/-- `fileStore.Append`: rejects the record unless the last stored index
equals `r.Index - 1` (computed on `uint64`, hence mod 2^64); otherwise
appends the record, appends the anchor when present, and overwrites the
tail slot, atomically. -/
def fileStoreAppend (s : FileStoreState) (r : Record) (tail : TailState)
    (anchor : Option Anchor) : Except StoreErr FileStoreState :=
  if getLastIndex s ≠ sub64one r.index then .error .nonContiguous
  else .ok ⟨s.recs ++ [r], s.anchors ++ anchor.toList, some tail⟩

/-- `fileStore.Iter(startIdx)`: the records with `Index ≥ startIdx`, in
file order. -/
def fileStoreIter (s : FileStoreState) (startIdx : Nat) : List Record :=
  s.recs.filter (fun r => startIdx ≤ r.index)

/-- Durable state of the SQLite-backed store (sqlite_store.go): the
`logs` table rows, the `anchors` table, and the singleton `tail` row. -/
structure SqliteStoreState where
  recs : List Record
  anchors : List Anchor
  tail : Option TailState
deriving DecidableEq, Repr

/-- `SELECT COALESCE(MAX(idx),0) FROM logs`. -/
def sqliteMaxIdx (recs : List Record) : Nat :=
  recs.foldl (fun acc r => max acc r.index) 0

/-- `sqliteStore.Append`: same contiguity check against the maximum
stored index, then insert record, upsert anchor, upsert tail, in one
transaction. -/
def sqliteStoreAppend (s : SqliteStoreState) (r : Record) (tail : TailState)
    (anchor : Option Anchor) : Except StoreErr SqliteStoreState :=
  if sqliteMaxIdx s.recs ≠ sub64one r.index then .error .nonContiguous
  else .ok ⟨s.recs ++ [r],
            (match anchor with
             | none => s.anchors
             | some a => (s.anchors.filter (fun b => b.index ≠ a.index)) ++ [a]),
            some tail⟩

/-- The two verifier error values `ErrGap` and `ErrTagMismatch`. -/
inductive ChainErr where
  | gap
  | tagMismatch
deriving DecidableEq, Repr

/-- The loop of `VerifyChain` (part_006) with its running state made
explicit: `expect` is the expected previous index, `key` the replayed
chain key, `prev` the running aggregate, and `lastTag` the function's
named 32-byte return value, whose Go zero value is the zero array and
which is reassigned only at the end of each successful iteration. -/
def verifyChainGo (m : HashModel) (records : List Record) (expect : Nat)
    (key prev lastTag : Bytes) (useVerifierChain : Bool) :
    Bytes × Option ChainErr :=
  match records with
  | [] => (lastTag, none)
  | r :: rest =>
    if r.index ≠ expect + 1 then (lastTag, some .gap)
    else
      let key' := m.sha256 key
      let macVal := mac m key' [be64 r.index, be64 (tsToU64 r.ts), r.msg]
      let tag := if isZero32 prev then htag m macVal else fold m prev macVal
      let stored := if useVerifierChain then r.tagV else r.tagT
      if ¬ constantTimeEqual tag stored then (lastTag, some .tagMismatch)
      else verifyChainGo m rest (expect + 1) key' tag tag useVerifierChain

/-- `VerifyChain` (part_006): replays one chain over the records and
returns the pair (final `lastTag`, error if any). -/
def verifyChain (m : HashModel) (records : List Record) (startIdx : Nat)
    (kStart tStart : Bytes) (useVerifierChain : Bool) :
    Bytes × Option ChainErr :=
  verifyChainGo m records startIdx kStart tStart zero32 useVerifierChain

/-- `VerifyFrom`: the V-chain entry point of `VerifyChain`. -/
def verifyFrom (m : HashModel) (records : List Record) (startIdx : Nat)
    (kStart tStart : Bytes) : Bytes × Option ChainErr :=
  verifyChain m records startIdx kStart tStart true

/-- `VerifyFromTrusted`: the T-chain entry point of `VerifyChain`. -/
def verifyFromTrusted (m : HashModel) (records : List Record) (startIdx : Nat)
    (kStart tStart : Bytes) : Bytes × Option ChainErr :=
  verifyChain m records startIdx kStart tStart false

/-- Errors of `SemiTrustedVerifier.VerifyFromAnchor` (verifier.go):
a chain error propagated from `VerifyFrom` or the terminal
`ErrTagMismatch` (both modelled by `chain`), or the
`"tail state unavailable"` error. -/
inductive AnchorVerifyErr where
  | chain (e : ChainErr)
  | noTail
deriving DecidableEq, Repr

/-- `SemiTrustedVerifier.VerifyFromAnchor` over the file store: loads
records with `Index > anchor.Index`, replays the V-chain from
`(anchor.Index, anchor.Key, anchor.TagV)`, then compares the returned
tag against the stored tail's `TagV` with `hmac.Equal`. -/
def verifyFromAnchor (m : HashModel) (s : FileStoreState) (a : Anchor) :
    Except AnchorVerifyErr Unit :=
  let recs := fileStoreIter s (a.index + 1)
  match verifyFrom m recs a.index a.key a.tagV with
  | (_, some e) => .error (.chain e)
  | (final, none) =>
    match s.tail with
    | none => .error .noTail
    | some t =>
      if hmacEqual final t.tagV then .ok () else .error (.chain .tagMismatch)

/-- `InitCommitment` (part_003); `StartTime` is opaque, kept as `Int`
nanoseconds. -/
structure InitCommitment where
  logID : String
  startTime : Int
  keyA0 : Bytes
  keyB0 : Bytes
  updateFreq : Nat
deriving DecidableEq, Repr, Inhabited

/-- `OpenMessage` (part_003). -/
structure OpenMessage where
  logID : String
  openTime : Int
  firstIndex : Nat
  firstTagV : Bytes
  firstTagT : Bytes
deriving DecidableEq, Repr, Inhabited

/-- `CloseMessage` (part_003). -/
structure CloseMessage where
  logID : String
  closeTime : Int
  finalIndex : Nat
  finalTagV : Bytes
  finalTagT : Bytes
deriving DecidableEq, Repr, Inhabited

/-- `Logger.InitProtocol`: captures the commitment from the current
keys (`keyUpdateFrequency()` is the constant 1), appends `START`, and
derives the open message from `LastState`.  Returns the messages on
success; on append failure the mutated logger state is that of the
failed append. -/
def initProtocol {σ ε : Type} (m : HashModel)
    (storeAppend : σ → Record → TailState → Option Anchor → Except ε σ)
    (l : LoggerState) (s : σ) (logID : String) (now : Int) :
    Except ε (InitCommitment × OpenMessage) × LoggerState × σ :=
  let commit : InitCommitment := ⟨logID, now, l.keyV, l.keyT, 1⟩
  match loggerAppend m storeAppend l s START now with
  | (.error e, l', s') => (.error e, l', s')
  | (.ok entry, l', s') =>
    (.ok (commit, ⟨logID, now, entry.index, l'.tagV, l'.tagT⟩), l', s')

/-- `Logger.CloseProtocol`: appends `CLOSE`, reads `LastState`, zeroes
both in-memory keys, and returns the close message. -/
def closeProtocol {σ ε : Type} (m : HashModel)
    (storeAppend : σ → Record → TailState → Option Anchor → Except ε σ)
    (l : LoggerState) (s : σ) (logID : String) (now : Int) :
    Except ε CloseMessage × LoggerState × σ :=
  match loggerAppend m storeAppend l s CLOSE now with
  | (.error e, l', s') => (.error e, l', s')
  | (.ok _, l', s') =>
    (.ok ⟨logID, now, l'.i, l'.tagV, l'.tagT⟩,
     { l' with keyV := zero32, keyT := zero32 }, s')

/-- The three per-LogID maps of `TrustedServer` (part_003), as
association lists with most-recent-first lookup (map overwrite). -/
structure TrustedServerState where
  commitments : List (String × InitCommitment)
  opens : List (String × OpenMessage)
  closures : List (String × CloseMessage)
deriving DecidableEq, Repr

/-- `NewTrustedServer`: all three maps empty. -/
def newTrustedServer : TrustedServerState := ⟨[], [], []⟩

/-- `TrustedServer.RegisterLog`. -/
def registerLog (ts : TrustedServerState) (c : InitCommitment) :
    TrustedServerState :=
  { ts with commitments := (c.logID, c) :: ts.commitments }

/-- `TrustedServer.RegisterOpen`. -/
def registerOpen (ts : TrustedServerState) (o : OpenMessage) :
    TrustedServerState :=
  { ts with opens := (o.logID, o) :: ts.opens }

/-- Error of `TrustedServer.AcceptClosure` (`"unknown log ID"`). -/
inductive ClosureErr where
  | unknownLog
deriving DecidableEq, Repr

/-- `TrustedServer.AcceptClosure`: fails when no commitment is stored
for the log, otherwise stores the closure. -/
def acceptClosure (ts : TrustedServerState) (c : CloseMessage) :
    Except ClosureErr TrustedServerState :=
  match ts.commitments.lookup c.logID with
  | none => .error .unknownLog
  | some _ => .ok { ts with closures := (c.logID, c) :: ts.closures }

/-- Errors of `VerifyCloseMessage` (part_003), by source line. -/
inductive CloseVerifyErr where
  | noRecords
  | finalIndexMismatch
  | missingClosingMessage
deriving DecidableEq, Repr

/-- `VerifyCloseMessage`: last record must exist, carry the closure's
`FinalIndex`, and have the literal body `CLOSE`. -/
def verifyCloseMessage (records : List Record) (c : CloseMessage) :
    Except CloseVerifyErr Unit :=
  match records.getLast? with
  | none => .error .noRecords
  | some lastRec =>
    if lastRec.index ≠ c.finalIndex then .error .finalIndexMismatch
    else if lastRec.msg ≠ CLOSE then .error .missingClosingMessage
    else .ok ()

/-- The distinct error outcomes of `TrustedServer.FinalVerify`
(part_003), one constructor per `return` site, in source order;
`openingVChain`/`openingTChain` wrap the chain error of the one-record
opening replays, `closeVerify` propagates `VerifyCloseMessage`, and
`tChainReplay` propagates the full T-chain replay error. -/
inductive FinalVerifyErr where
  | notRegistered
  | openNotRegistered
  | noRecords
  | openingIndexMismatch
  | missingOpeningMessage
  | openingVChain (e : ChainErr)
  | openingTChain (e : ChainErr)
  | openingTagMismatch
  | logNotClosed
  | closeVerify (e : CloseVerifyErr)
  | tChainReplay (e : ChainErr)
  | finalTagMismatch
deriving DecidableEq, Repr

/-- `TrustedServer.FinalVerify`: the authoritative closed-log check. -/
def finalVerify (m : HashModel) (ts : TrustedServerState) (logID : String)
    (records : List Record) : Except FinalVerifyErr Unit :=
  match ts.commitments.lookup logID with
  | none => .error .notRegistered
  | some commit =>
    match ts.opens.lookup logID with
    | none => .error .openNotRegistered
    | some openM =>
      match records with
      | [] => .error .noRecords
      | firstRec :: _ =>
        if firstRec.index ≠ openM.firstIndex then .error .openingIndexMismatch
        else if firstRec.msg ≠ START then .error .missingOpeningMessage
        else
          match verifyFrom m [firstRec] 0 commit.keyA0 zero32 with
          | (_, some e) => .error (.openingVChain e)
          | (firstV, none) =>
            match verifyFromTrusted m [firstRec] 0 commit.keyB0 zero32 with
            | (_, some e) => .error (.openingTChain e)
            | (firstT, none) =>
              if ¬ hmacEqual firstV openM.firstTagV ∨
                 ¬ hmacEqual firstT openM.firstTagT then
                .error .openingTagMismatch
              else
                match ts.closures.lookup logID with
                | none => .error .logNotClosed
                | some closeM =>
                  match verifyCloseMessage records closeM with
                  | .error e => .error (.closeVerify e)
                  | .ok _ =>
                    match verifyFromTrusted m records 0 commit.keyB0 zero32 with
                    | (_, some e) => .error (.tChainReplay e)
                    | (finalTag, none) =>
                      if ¬ hmacEqual finalTag closeM.finalTagT then
                        .error .finalTagMismatch
                      else .ok ()

/-- Error strings of the two chain sentinels (part_006). -/
def chainErrMessage : ChainErr → String
  | .gap => "gap or reordering detected"
  | .tagMismatch => "tag mismatch: tampering or wrong key"

/-- Error strings produced by `VerifyCloseMessage`. -/
def closeVerifyErrMessage : CloseVerifyErr → String
  | .noRecords => "no records to verify"
  | .finalIndexMismatch => "final index mismatch"
  | .missingClosingMessage => "missing proper closing message"

/-- The `err.Error()` string of each `FinalVerify` outcome, including
the `fmt.Errorf("...: %w", err)` wrapping prefixes. -/
def finalVerifyErrMessage : FinalVerifyErr → String
  | .notRegistered => "log not registered with trusted server"
  | .openNotRegistered => "log opening not registered with trusted server"
  | .noRecords => "no records to verify"
  | .openingIndexMismatch => "opening index mismatch"
  | .missingOpeningMessage => "missing opening message"
  | .openingVChain e => "verify opening V-chain: " ++ chainErrMessage e
  | .openingTChain e => "verify opening T-chain: " ++ chainErrMessage e
  | .openingTagMismatch => "opening tag mismatch"
  | .logNotClosed => "log has not been closed yet"
  | .closeVerify e => closeVerifyErrMessage e
  | .tChainReplay e => chainErrMessage e
  | .finalTagMismatch => "final T-chain tag mismatch"

/-- A JSON value as far as the verify endpoint's payload needs. -/
inductive JVal where
  | s (v : String)
  | b (v : Bool)
deriving DecidableEq, Repr

/-- The body written by the verify endpoint: the protobuf
`VerifyResponse{Verified, ErrorMessage}` for structured requests, or
the JSON object written field by field for native requests. -/
inductive VerifyPayload where
  | protoPayload (verified : Bool) (errorMessage : String)
  | jsonPayload (fields : List (String × JVal))
deriving DecidableEq, Repr

/-- An HTTP response of the verify endpoint: status code and payload. -/
structure VerifyHttpResponse where
  status : Nat
  payload : VerifyPayload
deriving DecidableEq, Repr

/-- `encodeVerifyResponse` (part_000): always writes status 200; the
protobuf branch carries `verified` and `error_message`, the JSON branch
writes exactly the fields `status`, `log_id`, `verified` (the `errMsg`
argument is not used there). -/
def encodeVerifyResponse (isProto : Bool) (logID : String) (verified : Bool)
    (errMsg : String) : VerifyHttpResponse :=
  if isProto then ⟨200, .protoPayload verified errMsg⟩
  else ⟨200, .jsonPayload
    [("status", .s "verified"), ("log_id", .s logID), ("verified", .b verified)]⟩

/-- `Server.HandleVerify` (part_000) on a well-formed (decodable) POST
request carrying `logID` and `records`: runs `FinalVerify` and encodes
the outcome; in the model the encoders themselves cannot fail. -/
def handleVerify (m : HashModel) (isProto : Bool) (ts : TrustedServerState)
    (logID : String) (records : List Record) : VerifyHttpResponse :=
  match finalVerify m ts logID records with
  | .error e => encodeVerifyResponse isProto logID false (finalVerifyErrMessage e)
  | .ok _ => encodeVerifyResponse isProto logID true ""

/-- Modelled from the spec (§4.4 Verifier): the same replay loop as
`VerifyChain`, but following the spec's words "Return `prev` as the
final tag" — on an empty record sequence it returns the starting
aggregate unchanged. -/
def specVerifyChain (m : HashModel) (records : List Record) (expect : Nat)
    (key prev : Bytes) (useVerifierChain : Bool) : Except ChainErr Bytes :=
  match records with
  | [] => .ok prev
  | r :: rest =>
    if r.index ≠ expect + 1 then .error .gap
    else
      let key' := fwdKey m key
      let tau := mac m key' [be64 r.index, be64 (tsToU64 r.ts), r.msg]
      let tag := if isZero32 prev then htag m tau else fold m prev tau
      let stored := if useVerifierChain then r.tagV else r.tagT
      if ¬ constantTimeEqual tag stored then .error .tagMismatch
      else specVerifyChain m rest (expect + 1) key' tag useVerifierChain

/-- Modelled from the spec (§4.7 FinalVerify, "Fails with the first
condition violated"): the ordered list of conditions `FinalVerify`
checks, each paired with the error reported when it is the first to
fail.  Data for later conditions is read through defaults that are
irrelevant when an earlier condition already failed. -/
def finalVerifyChecks (m : HashModel) (ts : TrustedServerState)
    (logID : String) (records : List Record) :
    List (Bool × FinalVerifyErr) :=
  let commit := (ts.commitments.lookup logID).getD default
  let openM := (ts.opens.lookup logID).getD default
  let closeM := (ts.closures.lookup logID).getD default
  let firstRec := records.head?.getD default
  let lastRec := records.getLast?.getD default
  let vRes := verifyFrom m [firstRec] 0 commit.keyA0 zero32
  let tRes := verifyFromTrusted m [firstRec] 0 commit.keyB0 zero32
  let fullT := verifyFromTrusted m records 0 commit.keyB0 zero32
  [ ((ts.commitments.lookup logID).isSome, .notRegistered),
    ((ts.opens.lookup logID).isSome, .openNotRegistered),
    (!records.isEmpty, .noRecords),
    (firstRec.index == openM.firstIndex, .openingIndexMismatch),
    (firstRec.msg == START, .missingOpeningMessage),
    (vRes.2.isNone, .openingVChain (vRes.2.getD .gap)),
    (tRes.2.isNone, .openingTChain (tRes.2.getD .gap)),
    (hmacEqual vRes.1 openM.firstTagV && hmacEqual tRes.1 openM.firstTagT,
      .openingTagMismatch),
    ((ts.closures.lookup logID).isSome, .logNotClosed),
    (lastRec.index == closeM.finalIndex, .closeVerify .finalIndexMismatch),
    (lastRec.msg == CLOSE, .closeVerify .missingClosingMessage),
    (fullT.2.isNone, .tChainReplay (fullT.2.getD .gap)),
    (hmacEqual fullT.1 closeM.finalTagT, .finalTagMismatch) ]

/-- First-failure semantics over an ordered check list: the error of
the first violated condition, ok when every condition holds. -/
def firstFailure : List (Bool × FinalVerifyErr) → Except FinalVerifyErr Unit
  | [] => .ok ()
  | (true, _) :: rest => firstFailure rest
  | (false, e) :: _ => .error e

/-- A sequence of `Logger.Append` calls against the file store; stops
at the first failed append. -/
def appendAll (m : HashModel) (l : LoggerState) (s : FileStoreState) :
    List (Bytes × Int) → Except StoreErr (LoggerState × FileStoreState)
  | [] => .ok (l, s)
  | (msg, ts) :: rest =>
    match loggerAppend m fileStoreAppend l s msg ts with
    | (.ok _, l', s') => appendAll m l' s' rest
    | (.error e, _, _) => .error e

/-- The success path of a sequence of appends, independent of any
store: the final logger state and the records produced. -/
def chainRun (m : HashModel) (l : LoggerState) :
    List (Bytes × Int) → LoggerState × List Record
  | [] => (l, [])
  | (msg, ts) :: rest =>
    let d := appendStep m l msg ts
    let (l', recs) := chainRun m d.okLogger rest
    (l', d.record :: recs)

/-- A concrete executable instantiation of the primitives, used to
evaluate the model on concrete inputs: hashing prepends the byte 1
(so no hash output is the zero array and iterated hashing never
returns to its argument), and the MAC pairs key and data behind the
byte 2. -/
def mt : HashModel :=
  { sha256 := fun b => 1 :: b
    hmacSha256 := fun k d => 2 :: (k ++ d) }

/-- A concrete 32-byte seed for `A_0` used in concrete evaluations. -/
def a0c : Bytes := List.replicate 32 3

/-- A concrete 32-byte seed for `B_0` used in concrete evaluations. -/
def b0c : Bytes := List.replicate 32 4

/-- A file store whose last record has index 5: any append of a record
with a different next index is rejected as non-contiguous, making the
store call inside `Logger.Append` fail. -/
def badStore : FileStoreState := ⟨[⟨5, 0, [1], zero32, zero32⟩], [], none⟩

/-- The model run of `CloseProtocol` on a fresh logger over an empty
file store (the `CLOSE` record becomes index 1). -/
def closedRun : Except StoreErr CloseMessage × LoggerState × FileStoreState :=
  closeProtocol mt fileStoreAppend (newLogger 0 a0c b0c) emptyFileStore "L" 3

/-- The logger state after `CloseProtocol` in `closedRun`. -/
def closedLogger : LoggerState := closedRun.2.1

/-- The file store state after `CloseProtocol` in `closedRun`. -/
def closedStore : FileStoreState := closedRun.2.2

/-- The store after one append with `AnchorEvery = 1`: one record at
index 1, one anchor at index 1, tail at index 1 — so the anchor sits
exactly at the tail index. -/
def anchoredStore : FileStoreState :=
  match appendAll mt (newLogger 1 a0c b0c) emptyFileStore [([9], 5)] with
  | .ok (_, sf) => sf
  | .error _ => emptyFileStore

/-- The (single) anchor of `anchoredStore`, at the tail index. -/
def tailAnchor : Anchor := anchoredStore.anchors.headD default

/-- State invariant of a logger driven from `New`: before the first
append the counter is 0 and both aggregates are the zero array; after
any append the counter is positive and (for a hash model that never
outputs the zero array) both aggregates are nonzero. -/
def TagInv (l : LoggerState) : Prop :=
  (l.i = 0 ∧ l.tagV = zero32 ∧ l.tagT = zero32) ∨
  (l.i ≠ 0 ∧ l.tagV ≠ zero32 ∧ l.tagT ≠ zero32)

/-- File-store states reachable through `Append` from a fresh store;
appended records carry `uint64` indices, hence `< 2^64`. -/
inductive FileReachable : FileStoreState → Prop where
  | empty : FileReachable emptyFileStore
  | step {s : FileStoreState} {r : Record} {t : TailState}
      {a : Option Anchor} {s' : FileStoreState} :
      FileReachable s → r.index < 2 ^ 64 →
      fileStoreAppend s r t a = .ok s' → FileReachable s'

theorem nat_or_eq_zero {n m : Nat} : n ||| m = 0 ↔ n = 0 ∧ m = 0 := by
  constructor
  · intro h
    refine ⟨Nat.eq_of_testBit_eq fun i => ?_, Nat.eq_of_testBit_eq fun i => ?_⟩ <;>
      have := congrArg (fun x => Nat.testBit x i) h <;>
      simp [Nat.testBit_lor] at this <;> simp [this]
  · rintro ⟨rfl, rfl⟩
    rfl

theorem ct_foldl_eq_zero (ps : List (Nat × Nat)) :
    ∀ acc : Nat,
      (ps.foldl (fun a p => a ||| (p.1 ^^^ p.2)) acc = 0 ↔
        acc = 0 ∧ ∀ p ∈ ps, p.1 = p.2) := by
  induction ps with
  | nil => intro acc; simp
  | cons q qs ih =>
    intro acc
    simp only [List.foldl_cons, ih, nat_or_eq_zero, Nat.xor_eq_zero,
      List.mem_cons]
    constructor
    · rintro ⟨⟨h1, h2⟩, h3⟩
      exact ⟨h1, fun p hp => by rcases hp with rfl | hp; exact h2; exact h3 p hp⟩
    · rintro ⟨h1, h2⟩
      exact ⟨⟨h1, h2 q (Or.inl rfl)⟩, fun p hp => h2 p (Or.inr hp)⟩

theorem zip_eq_of_len {a b : Bytes} (hlen : a.length = b.length)
    (h : ∀ p ∈ a.zip b, p.1 = p.2) : a = b := by
  induction a generalizing b with
  | nil => cases b with
    | nil => rfl
    | cons y ys => simp at hlen
  | cons x xs ih =>
    cases b with
    | nil => simp at hlen
    | cons y ys =>
      simp only [List.zip_cons_cons, List.mem_cons] at h
      have hx : x = y := h (x, y) (Or.inl rfl)
      have : xs = ys := by
        apply ih (by simpa using hlen)
        intro p hp
        exact h p (Or.inr hp)
      rw [hx, this]

theorem mem_zip_same {a : Bytes} : ∀ p ∈ a.zip a, p.1 = p.2 := by
  induction a with
  | nil => simp
  | cons x xs ih =>
    intro p hp
    simp only [List.zip_cons_cons, List.mem_cons] at hp
    rcases hp with rfl | hp
    · rfl
    · exact ih p hp

/-- `constantTimeEqual` decides byte-string equality. -/
theorem constantTimeEqual_iff {a b : Bytes} :
    constantTimeEqual a b = true ↔ a = b := by
  unfold constantTimeEqual
  by_cases hlen : a.length = b.length
  · simp only [hlen, ne_eq, not_true_eq_false, if_false, beq_iff_eq]
    rw [ct_foldl_eq_zero]
    constructor
    · rintro ⟨-, h⟩
      exact zip_eq_of_len hlen h
    · rintro rfl
      exact ⟨rfl, mem_zip_same⟩
  · rw [if_pos (by simpa using hlen)]
    constructor
    · intro h
      cases h
    · intro h
      exact absurd (by rw [h]) hlen

theorem constantTimeEqual_refl (a : Bytes) : constantTimeEqual a a = true :=
  constantTimeEqual_iff.mpr rfl

theorem hmacEqual_iff {a b : Bytes} : hmacEqual a b = true ↔ a = b :=
  constantTimeEqual_iff

theorem isZero32_zero : isZero32 zero32 = true := rfl

theorem isZero32_eq_false {x : Bytes} (h : x ≠ zero32) : isZero32 x = false := by
  simpa [isZero32] using h

theorem chainRun_cons (m : HashModel) (l : LoggerState) (msg : Bytes)
    (ts : Int) (rest : List (Bytes × Int)) :
    chainRun m l ((msg, ts) :: rest) =
      ((chainRun m (appendStep m l msg ts).okLogger rest).1,
       (appendStep m l msg ts).record ::
         (chainRun m (appendStep m l msg ts).okLogger rest).2) := by
  simp [chainRun]

theorem tagInv_new (anchorEvery : Nat) (a0 b0 : Bytes) :
    TagInv (newLogger anchorEvery a0 b0) := by
  left
  exact ⟨rfl, rfl, rfl⟩

theorem tagInv_step {m : HashModel} (HZ : ∀ x, m.sha256 x ≠ zero32)
    (l : LoggerState) (msg : Bytes) (ts : Int) :
    TagInv (appendStep m l msg ts).okLogger := by
  right
  refine ⟨by simp [appendStep], ?_, ?_⟩ <;>
    · simp only [appendStep, htag, fold]
      split <;> exact HZ _

theorem chainRun_verifyGo {m : HashModel} (HZ : ∀ x, m.sha256 x ≠ zero32)
    (useV : Bool) :
    ∀ (entries : List (Bytes × Int)) (l : LoggerState) (lt0 : Bytes),
      TagInv l →
      verifyChainGo m (chainRun m l entries).2 l.i
          (if useV then l.keyV else l.keyT)
          (if useV then l.tagV else l.tagT) lt0 useV
        = ((if entries.isEmpty then lt0
            else if useV then (chainRun m l entries).1.tagV
            else (chainRun m l entries).1.tagT), none) := by
  intro entries
  induction entries with
  | nil =>
    intro l lt0 _
    simp [chainRun, verifyChainGo]
  | cons e rest ih =>
    obtain ⟨msg, ts⟩ := e
    intro l lt0 hinv
    rw [chainRun_cons]
    have hidx : (appendStep m l msg ts).record.index = l.i + 1 := rfl
    have hts : (appendStep m l msg ts).record.ts = ts := rfl
    have hmsg : (appendStep m l msg ts).record.msg = msg := rfl
    have hkey :
        m.sha256 (if useV then l.keyV else l.keyT) =
          (if useV then (appendStep m l msg ts).okLogger.keyV
           else (appendStep m l msg ts).okLogger.keyT) := by
      cases useV <;> rfl
    have htag_eq :
        (if isZero32 (if useV then l.tagV else l.tagT) then
            htag m (mac m (m.sha256 (if useV then l.keyV else l.keyT))
              [be64 (l.i + 1), be64 (tsToU64 ts), msg])
          else
            fold m (if useV then l.tagV else l.tagT)
              (mac m (m.sha256 (if useV then l.keyV else l.keyT))
                [be64 (l.i + 1), be64 (tsToU64 ts), msg])) =
          (if useV then (appendStep m l msg ts).record.tagV
           else (appendStep m l msg ts).record.tagT) := by
      rcases hinv with ⟨hi, hv, ht⟩ | ⟨hi, hv, ht⟩
      · cases useV <;> simp [hi, hv, ht, isZero32, appendStep, fwdKey]
      · have hc : (l.i + 1 == 1 && isZero32 l.tagV && isZero32 l.tagT) = false := by
          simp [isZero32_eq_false hv, isZero32_eq_false ht]
        cases useV <;>
          simp [isZero32_eq_false hv, isZero32_eq_false ht, appendStep, hc, fwdKey]
    simp only [verifyChainGo, hidx, hts, hmsg]
    rw [if_neg (by simp)]
    rw [htag_eq, hkey]
    rw [if_neg (by simp [constantTimeEqual_refl])]
    have hok_i : (appendStep m l msg ts).okLogger.i = l.i + 1 := rfl
    have hok_tag :
        (if useV then (appendStep m l msg ts).record.tagV
         else (appendStep m l msg ts).record.tagT) =
          (if useV then (appendStep m l msg ts).okLogger.tagV
           else (appendStep m l msg ts).okLogger.tagT) := by
      cases useV <;> rfl
    rw [hok_tag, ← hok_i]
    rw [ih (appendStep m l msg ts).okLogger _ (tagInv_step HZ l msg ts)]
    cases rest with
    | nil => cases useV <;> simp [chainRun]
    | cons f fs => simp

theorem chainRun_final_i (m : HashModel) :
    ∀ (entries : List (Bytes × Int)) (l : LoggerState),
      (chainRun m l entries).1.i = l.i + entries.length := by
  intro entries
  induction entries with
  | nil => intro l; simp [chainRun]
  | cons e rest ih =>
    obtain ⟨msg, ts⟩ := e
    intro l
    rw [chainRun_cons]
    have : (appendStep m l msg ts).okLogger.i = l.i + 1 := rfl
    simp [ih, this]
    omega

theorem chainRun_indices (m : HashModel) :
    ∀ (entries : List (Bytes × Int)) (l : LoggerState),
      (chainRun m l entries).2.map Record.index =
        List.range' (l.i + 1) entries.length := by
  intro entries
  induction entries with
  | nil => intro l; simp [chainRun]
  | cons e rest ih =>
    obtain ⟨msg, ts⟩ := e
    intro l
    rw [chainRun_cons]
    have h1 : (appendStep m l msg ts).record.index = l.i + 1 := rfl
    have h2 : (appendStep m l msg ts).okLogger.i = l.i + 1 := rfl
    simp only [List.map_cons, h1, ih, h2, List.length_cons, List.range'_succ]

theorem chainRun_keyV (m : HashModel) :
    ∀ (entries : List (Bytes × Int)) (l : LoggerState),
      (chainRun m l entries).1.keyV = m.sha256^[entries.length] l.keyV := by
  intro entries
  induction entries with
  | nil => intro l; simp [chainRun]
  | cons e rest ih =>
    obtain ⟨msg, ts⟩ := e
    intro l
    rw [chainRun_cons]
    have : (appendStep m l msg ts).okLogger.keyV = m.sha256 l.keyV := rfl
    simp only [ih, this, List.length_cons, Function.iterate_succ_apply]

theorem chainRun_keyT (m : HashModel) :
    ∀ (entries : List (Bytes × Int)) (l : LoggerState),
      (chainRun m l entries).1.keyT = m.sha256^[entries.length] l.keyT := by
  intro entries
  induction entries with
  | nil => intro l; simp [chainRun]
  | cons e rest ih =>
    obtain ⟨msg, ts⟩ := e
    intro l
    rw [chainRun_cons]
    have : (appendStep m l msg ts).okLogger.keyT = m.sha256 l.keyT := rfl
    simp only [ih, this, List.length_cons, Function.iterate_succ_apply]

theorem sub64one_succ {n : Nat} (h : n < 2 ^ 64) : sub64one (n + 1) = n := by
  unfold sub64one
  have : n + 1 + 2 ^ 64 - 1 = n + 2 ^ 64 := by omega
  rw [this, Nat.add_mod_right, Nat.mod_eq_of_lt h]

theorem getLastIndex_append (recs : List Record) (r : Record)
    (ancs : List Anchor) (t : Option TailState) :
    getLastIndex ⟨recs ++ [r], ancs, t⟩ = r.index := by
  simp [getLastIndex]

theorem appendAll_cons_ok {m : HashModel} {l l' : LoggerState}
    {s s' : FileStoreState} {msg : Bytes} {ts : Int} {en : Entry}
    {rest : List (Bytes × Int)}
    (h : loggerAppend m fileStoreAppend l s msg ts = (.ok en, l', s')) :
    appendAll m l s ((msg, ts) :: rest) = appendAll m l' s' rest := by
  conv_lhs => rw [appendAll]
  rw [h]

/-- A run of appends against the file store from a position in sync
with the store succeeds entirely and produces exactly the records,
final logger state and tail slot of the pure success path. -/
theorem appendAll_ok {m : HashModel} :
    ∀ (entries : List (Bytes × Int)) (l : LoggerState) (s : FileStoreState),
      getLastIndex s = l.i → l.i + entries.length < 2 ^ 64 →
      ∃ ancs, appendAll m l s entries =
        .ok ((chainRun m l entries).1,
          ⟨s.recs ++ (chainRun m l entries).2, ancs,
           if entries.isEmpty then s.tail
           else some ⟨(chainRun m l entries).1.i, (chainRun m l entries).1.tagV,
                      (chainRun m l entries).1.tagT⟩⟩) := by
  intro entries
  induction entries with
  | nil =>
    intro l s _ _
    exact ⟨s.anchors, by simp [appendAll, chainRun]⟩
  | cons e rest ih =>
    obtain ⟨msg, ts⟩ := e
    intro l s hsync hlen
    have hi : l.i < 2 ^ 64 := by simp at hlen; omega
    have hidx : (appendStep m l msg ts).record.index = l.i + 1 := rfl
    have happ : fileStoreAppend s (appendStep m l msg ts).record
        (appendStep m l msg ts).tail (appendStep m l msg ts).anchor =
        .ok ⟨s.recs ++ [(appendStep m l msg ts).record],
             s.anchors ++ ((appendStep m l msg ts).anchor).toList,
             some (appendStep m l msg ts).tail⟩ := by
      unfold fileStoreAppend
      rw [if_neg]
      simp [hidx, hsync, sub64one_succ hi]
    have hok_i : (appendStep m l msg ts).okLogger.i = l.i + 1 := rfl
    have hsync' : getLastIndex ⟨s.recs ++ [(appendStep m l msg ts).record],
        s.anchors ++ ((appendStep m l msg ts).anchor).toList,
        some (appendStep m l msg ts).tail⟩ = (appendStep m l msg ts).okLogger.i := by
      rw [getLastIndex_append, hidx, hok_i]
    have hlen' : (appendStep m l msg ts).okLogger.i + rest.length < 2 ^ 64 := by
      rw [hok_i]; simp at hlen; omega
    obtain ⟨ancs, hrec⟩ := ih (appendStep m l msg ts).okLogger _ hsync' hlen'
    refine ⟨ancs, ?_⟩
    have hstep : loggerAppend m fileStoreAppend l s msg ts =
        (.ok (appendStep m l msg ts).entry, (appendStep m l msg ts).okLogger,
         ⟨s.recs ++ [(appendStep m l msg ts).record],
          s.anchors ++ ((appendStep m l msg ts).anchor).toList,
          some (appendStep m l msg ts).tail⟩) := by
      simp only [loggerAppend]
      rw [happ]
    rw [appendAll_cons_ok hstep, hrec, chainRun_cons]
    cases rest with
    | nil =>
      have htail : (appendStep m l msg ts).tail =
          ⟨(appendStep m l msg ts).okLogger.i, (appendStep m l msg ts).okLogger.tagV,
           (appendStep m l msg ts).okLogger.tagT⟩ := rfl
      simp [chainRun, htail]
    | cons f fs => simp

theorem mt_sha256_ne_zero32 : ∀ x : Bytes, mt.sha256 x ≠ zero32 := by
  intro x h
  simp [mt, zero32, List.replicate_succ] at h

theorem mt_iterate_length :
    ∀ (k : Nat) (x : Bytes), (mt.sha256^[k] x).length = x.length + k := by
  intro k
  induction k with
  | zero => intro x; simp
  | succ n ih =>
    intro x
    rw [Function.iterate_succ_apply, ih]
    simp [mt]
    omega

theorem mt_iterate_ne :
    ∀ (x : Bytes) (k : Nat), k ≠ 0 → mt.sha256^[k] x ≠ x := by
  intro x k hk h
  have := mt_iterate_length k x
  rw [h] at this
  omega

theorem maxIdx_of_range {recs : List Record} {n : Nat}
    (h : recs.map Record.index = List.range' 1 n) : sqliteMaxIdx recs = n := by
  have hfold : ∀ k : Nat, (List.range' 1 k).foldl max 0 = k := by
    intro k
    induction k with
    | zero => rfl
    | succ j ih =>
      rw [List.range'_concat, List.foldl_append, ih]
      simp [Nat.max_def]
      omega
  have : sqliteMaxIdx recs = (recs.map Record.index).foldl max 0 := by
    rw [List.foldl_map]
    rfl
  rw [this, h, hfold]

/-- C1: every record sequence produced by successful `Logger.Append`
calls from a fresh logger with seeds `(A_0, B_0)` verifies cleanly:
`VerifyFrom(records, 0, A_0, 0_32)` and
`VerifyFromTrusted(records, 0, B_0, 0_32)` both return without error,
and the tags they return equal the stored tail's `μ_V` and `μ_T`, which
are the tags the logger last committed.  The hash model is assumed
never to output the all-zero array (true of SHA-256 on every known
input; an all-zero aggregate would make the verifier take the `htag`
branch where the logger folded). -/
theorem c1_produced_records_verify {m : HashModel}
    (HZ : ∀ x, m.sha256 x ≠ zero32) (anchorEvery : Nat) (a0 b0 : Bytes)
    (entries : List (Bytes × Int)) (hne : entries ≠ [])
    (hlen : entries.length < 2 ^ 64) :
    ∃ (lf : LoggerState) (sf : FileStoreState),
      appendAll m (newLogger anchorEvery a0 b0) emptyFileStore entries =
        .ok (lf, sf) ∧
      sf.tail = some ⟨lf.i, lf.tagV, lf.tagT⟩ ∧
      verifyFrom m sf.recs 0 a0 zero32 = (lf.tagV, none) ∧
      verifyFromTrusted m sf.recs 0 b0 zero32 = (lf.tagT, none) := by
  obtain ⟨ancs, happ⟩ :=
    appendAll_ok entries (newLogger anchorEvery a0 b0) emptyFileStore rfl
      (by simpa [newLogger] using hlen)
  have hemp : entries.isEmpty = false := by
    cases entries with
    | nil => exact absurd rfl hne
    | cons e es => rfl
  rw [hemp] at happ
  refine ⟨(chainRun m (newLogger anchorEvery a0 b0) entries).1, _, happ, by simp, ?_, ?_⟩
  · have hv := chainRun_verifyGo HZ true entries (newLogger anchorEvery a0 b0)
      zero32 (tagInv_new anchorEvery a0 b0)
    simp only [newLogger, if_true, hemp, Bool.false_eq_true, if_false] at hv
    simpa [verifyFrom, verifyChain, newLogger, hemp] using hv
  · have hv := chainRun_verifyGo HZ false entries (newLogger anchorEvery a0 b0)
      zero32 (tagInv_new anchorEvery a0 b0)
    simp only [newLogger, if_false, hemp, Bool.false_eq_true] at hv
    simpa [verifyFromTrusted, verifyChain, newLogger, hemp] using hv

/-- C1 witness: a concrete two-entry run under the concrete hash model. -/
theorem c1_produced_records_verify_witness :
    ∃ (lf : LoggerState) (sf : FileStoreState),
      appendAll mt (newLogger 0 a0c b0c) emptyFileStore [([9], 5), ([8], 6)] =
        .ok (lf, sf) ∧
      sf.tail = some ⟨lf.i, lf.tagV, lf.tagT⟩ ∧
      verifyFrom mt sf.recs 0 a0c zero32 = (lf.tagV, none) ∧
      verifyFromTrusted mt sf.recs 0 b0c zero32 = (lf.tagT, none) :=
  c1_produced_records_verify mt_sha256_ne_zero32 0 a0c b0c
    [([9], 5), ([8], 6)] (by decide) (by norm_num)

/-- C5: after `n` successful appends on a fresh logger the store's
singleton tail slot holds index `n`, which is the maximum stored record
index, and the tail's tags are exactly the pair `LastState` reports. -/
theorem c5_tail_matches_last_state {m : HashModel} (anchorEvery : Nat)
    (a0 b0 : Bytes) (entries : List (Bytes × Int)) (hne : entries ≠ [])
    (hlen : entries.length < 2 ^ 64) :
    ∃ (lf : LoggerState) (sf : FileStoreState),
      appendAll m (newLogger anchorEvery a0 b0) emptyFileStore entries =
        .ok (lf, sf) ∧
      lastState lf = (entries.length, lf.tagV, lf.tagT) ∧
      sf.tail = some ⟨entries.length, lf.tagV, lf.tagT⟩ ∧
      sqliteMaxIdx sf.recs = entries.length := by
  obtain ⟨ancs, happ⟩ :=
    appendAll_ok entries (newLogger anchorEvery a0 b0) emptyFileStore rfl
      (by simpa [newLogger] using hlen)
  have hemp : entries.isEmpty = false := by
    cases entries with
    | nil => exact absurd rfl hne
    | cons e es => rfl
  rw [hemp] at happ
  have hi : (chainRun m (newLogger anchorEvery a0 b0) entries).1.i =
      entries.length := by
    rw [chainRun_final_i]
    simp [newLogger]
  refine ⟨(chainRun m (newLogger anchorEvery a0 b0) entries).1, _, happ, ?_, ?_, ?_⟩
  · rw [lastState, hi]
  · simp [hi]
  · have hidx := chainRun_indices m entries (newLogger anchorEvery a0 b0)
    have : (newLogger anchorEvery a0 b0).i + 1 = 1 := rfl
    rw [this] at hidx
    simpa using maxIdx_of_range hidx

/-- C5 witness: a concrete three-entry run. -/
theorem c5_tail_matches_last_state_witness :
    ∃ (lf : LoggerState) (sf : FileStoreState),
      appendAll mt (newLogger 0 a0c b0c) emptyFileStore
          [([9], 5), ([8], 6), ([7], 7)] = .ok (lf, sf) ∧
      lastState lf = (3, lf.tagV, lf.tagT) ∧
      sf.tail = some ⟨3, lf.tagV, lf.tagT⟩ ∧
      sqliteMaxIdx sf.recs = 3 :=
  c5_tail_matches_last_state 0 a0c b0c [([9], 5), ([8], 6), ([7], 7)]
    (by decide) (by norm_num)

/-- C10: `GetInitialKeys`, documented as returning the seeds
`(A_0, B_0)`, returns the current evolved keys: after `n` successful
appends it returns `(SHA-256^n(A_0), SHA-256^n(B_0))`, and (for a hash
with no periodic points, as SHA-256 is believed to be on these inputs)
that equals the seed pair only when no append has happened yet. -/
theorem c10_get_initial_keys_returns_current {m : HashModel}
    (HP : ∀ (x : Bytes) (k : Nat), k ≠ 0 → m.sha256^[k] x ≠ x)
    (anchorEvery : Nat) (a0 b0 : Bytes) (entries : List (Bytes × Int))
    (hlen : entries.length < 2 ^ 64) :
    ∃ (lf : LoggerState) (sf : FileStoreState),
      appendAll m (newLogger anchorEvery a0 b0) emptyFileStore entries =
        .ok (lf, sf) ∧
      getInitialKeys lf =
        (m.sha256^[entries.length] a0, m.sha256^[entries.length] b0) ∧
      (getInitialKeys lf = (a0, b0) ↔ entries = []) := by
  obtain ⟨ancs, happ⟩ :=
    appendAll_ok entries (newLogger anchorEvery a0 b0) emptyFileStore rfl
      (by simpa [newLogger] using hlen)
  refine ⟨(chainRun m (newLogger anchorEvery a0 b0) entries).1, _, happ, ?_, ?_⟩
  · rw [getInitialKeys, chainRun_keyV, chainRun_keyT]
    rfl
  · rw [getInitialKeys, chainRun_keyV, chainRun_keyT]
    constructor
    · intro h
      by_contra hne
      have hk : entries.length ≠ 0 := by
        cases entries with
        | nil => exact absurd rfl hne
        | cons e es => simp
      exact HP a0 entries.length hk (congrArg Prod.fst h)
    · rintro rfl
      rfl

/-- C10 witness: after two concrete appends the accessor returns the
twice-hashed seeds, which differ from the seeds. -/
theorem c10_get_initial_keys_returns_current_witness :
    ∃ (lf : LoggerState) (sf : FileStoreState),
      appendAll mt (newLogger 0 a0c b0c) emptyFileStore [([9], 5), ([8], 6)] =
        .ok (lf, sf) ∧
      getInitialKeys lf = (mt.sha256^[2] a0c, mt.sha256^[2] b0c) ∧
      (getInitialKeys lf = (a0c, b0c) ↔ ([([9], 5), ([8], 6)] : List (Bytes × Int)) = []) :=
  c10_get_initial_keys_returns_current mt_iterate_ne 0 a0c b0c
    [([9], 5), ([8], 6)] (by norm_num)

/-- C2: each `Logger.Append` at step `i = i_prev + 1` first evolves
both chain keys by exactly one SHA-256 application, MACs
`be64(i) ‖ be64(ts) ‖ msg` under the evolved key of each chain, sets
the new aggregate to `SHA-256(τ)` exactly when `i = 1` and both current
aggregates are zero and to `SHA-256(μ_prev ‖ τ)` otherwise, and the
record handed to the store carries exactly these two aggregates as
`TagV` and `TagT` (which are also the values committed on success). -/
theorem c2_append_computes_spec_formulas (m : HashModel) (l : LoggerState)
    (msg : Bytes) (ts : Int) :
    (appendStep m l msg ts).okLogger.keyV = m.sha256 l.keyV ∧
    (appendStep m l msg ts).okLogger.keyT = m.sha256 l.keyT ∧
    (appendStep m l msg ts).record.index = l.i + 1 ∧
    (appendStep m l msg ts).record.tagV =
      (if l.i + 1 = 1 ∧ l.tagV = zero32 ∧ l.tagT = zero32 then
        m.sha256 (m.hmacSha256 (m.sha256 l.keyV)
          (be64 (l.i + 1) ++ be64 (tsToU64 ts) ++ msg))
      else
        m.sha256 (l.tagV ++ m.hmacSha256 (m.sha256 l.keyV)
          (be64 (l.i + 1) ++ be64 (tsToU64 ts) ++ msg))) ∧
    (appendStep m l msg ts).record.tagT =
      (if l.i + 1 = 1 ∧ l.tagV = zero32 ∧ l.tagT = zero32 then
        m.sha256 (m.hmacSha256 (m.sha256 l.keyT)
          (be64 (l.i + 1) ++ be64 (tsToU64 ts) ++ msg))
      else
        m.sha256 (l.tagT ++ m.hmacSha256 (m.sha256 l.keyT)
          (be64 (l.i + 1) ++ be64 (tsToU64 ts) ++ msg))) ∧
    (appendStep m l msg ts).okLogger.tagV = (appendStep m l msg ts).record.tagV ∧
    (appendStep m l msg ts).okLogger.tagT = (appendStep m l msg ts).record.tagT := by
  refine ⟨rfl, rfl, rfl, ?_, ?_, rfl, rfl⟩ <;>
    · simp only [appendStep, fwdKey, mac, htag, fold, isZero32, List.flatten,
        List.append_nil, List.append_assoc]
      by_cases h1 : l.i + 1 = 1 ∧ l.tagV = zero32 ∧ l.tagT = zero32
      · obtain ⟨ha, hb, hc⟩ := h1
        simp [ha, hb, hc]
      · rw [if_neg h1, if_neg]
        simp only [Bool.and_eq_true, beq_iff_eq, Nat.add_right_cancel_iff]
        intro hcon
        obtain ⟨⟨ha, hb⟩, hc⟩ := hcon
        exact h1 ⟨by omega, hb, hc⟩

/-- C3: the code does not restore the chain keys when the store append
fails.  On a concrete failing append (fresh logger, store whose last
index is 5, so the contiguity check rejects index 1) the logger keeps
its pre-call `i` and aggregate tags but both keys are left evolved by
one hash application, different from the seeds — contradicting the
claim that `A` and `B` are rolled back. -/
theorem c3_failed_append_keys_not_rolled_back :
    loggerAppend mt fileStoreAppend (newLogger 0 a0c b0c) badStore [7] (9 : Int) =
      (.error .nonContiguous,
       { anchorEvery := 0, i := 0, keyV := mt.sha256 a0c, keyT := mt.sha256 b0c,
         tagV := zero32, tagT := zero32 }, badStore) ∧
    mt.sha256 a0c ≠ a0c ∧ mt.sha256 b0c ≠ b0c := by
  refine ⟨?_, by decide, by decide⟩
  rfl

/-- C4: `CloseProtocol` zeroes both in-memory keys (first two
conjuncts), but a subsequent `Append` on the closed logger is not
rejected: it succeeds against the store and advances the index to 2 —
there is no post-Close state error anywhere in `Logger.Append`. -/
theorem c4_post_close_append_not_rejected :
    closedLogger.keyV = zero32 ∧ closedLogger.keyT = zero32 ∧
    (loggerAppend mt fileStoreAppend closedLogger closedStore [7] (9 : Int)).1.isOk
      = true ∧
    (loggerAppend mt fileStoreAppend closedLogger closedStore [7] (9 : Int)).2.1.i
      = 2 := by
  refine ⟨rfl, rfl, ?_, ?_⟩ <;> rfl

theorem getLastIndex_of_range {s : FileStoreState} {n : Nat}
    (h : s.recs.map Record.index = List.range' 1 n) : getLastIndex s = n := by
  cases hrec : s.recs.getLast? with
  | none =>
    have hnil : s.recs = [] := by simpa using hrec
    have hn : n = 0 := by
      have := congrArg List.length h
      rw [hnil] at this
      simpa using this.symm
    unfold getLastIndex
    rw [hrec, hn]
  | some r =>
    have hmap : (s.recs.map Record.index).getLast? = some r.index := by
      rw [List.getLast?_map, hrec]
      rfl
    rw [h] at hmap
    cases n with
    | zero => simp at hmap
    | succ j =>
      rw [List.range'_concat, List.getLast?_concat] at hmap
      have : r.index = j + 1 := by
        have := Option.some.inj hmap
        omega
      unfold getLastIndex
      rw [hrec]
      exact this

theorem fileStoreAppend_ok_iff {s : FileStoreState} {r : Record}
    {t : TailState} {a : Option Anchor} {s' : FileStoreState} :
    fileStoreAppend s r t a = .ok s' ↔
      getLastIndex s = sub64one r.index ∧
      s' = ⟨s.recs ++ [r], s.anchors ++ a.toList, some t⟩ := by
  unfold fileStoreAppend
  by_cases h : getLastIndex s = sub64one r.index
  · rw [if_neg (by simp [h])]
    simp [h, eq_comm]
  · rw [if_pos (by simpa using h)]
    simp [h]

theorem fileReachable_contiguous :
    ∀ {s : FileStoreState}, FileReachable s → s.recs.length + 1 < 2 ^ 64 →
      s.recs.map Record.index = List.range' 1 s.recs.length := by
  intro s hs
  induction hs with
  | empty => intro _; rfl
  | step hs hidx happ ih =>
    rename_i s0 r t a s'
    intro hbound
    obtain ⟨hchk, rfl⟩ := fileStoreAppend_ok_iff.mp happ
    simp only [List.length_append, List.length_singleton] at hbound
    have ih' := ih (by omega)
    have hlast : getLastIndex s0 = s0.recs.length := getLastIndex_of_range ih'
    have hridx : r.index = s0.recs.length + 1 := by
      rcases Nat.eq_zero_or_pos r.index with hz | hp
      · rw [hz] at hchk
        unfold sub64one at hchk
        rw [hlast] at hchk
        have : (0 + 2 ^ 64 - 1) % 2 ^ 64 = 2 ^ 64 - 1 :=
          Nat.mod_eq_of_lt (by omega)
        omega
      · obtain ⟨j, hj⟩ : ∃ j, r.index = j + 1 :=
          ⟨r.index - 1, by omega⟩
        rw [hj, sub64one_succ (by omega), hlast] at hchk
        omega
    simp only [List.map_append, List.map_cons, List.map_nil, ih', hridx,
      List.length_append, List.length_singleton]
    rw [List.range'_concat]
    simp [Nat.add_comm]

/-- C7: for both concrete stores, `Append` fails with the
non-contiguous error exactly when the current maximum stored record
index differs from `record.Index − 1` (`uint64` arithmetic, so an
empty store — maximum index 0 — accepts exactly index 1).  The SQLite
store computes `MAX(idx)` directly; the file store reads the *last*
record's index, which coincides with the maximum on every store
reachable through appends (within `uint64` range). -/
theorem c7_non_contiguous_append :
    (∀ (s : SqliteStoreState) (r : Record) (t : TailState) (a : Option Anchor),
      sqliteStoreAppend s r t a = .error .nonContiguous ↔
        sqliteMaxIdx s.recs ≠ sub64one r.index) ∧
    (∀ (s : FileStoreState) (r : Record) (t : TailState) (a : Option Anchor),
      FileReachable s → s.recs.length + 1 < 2 ^ 64 → r.index < 2 ^ 64 →
      (fileStoreAppend s r t a = .error .nonContiguous ↔
        sqliteMaxIdx s.recs ≠ sub64one r.index)) ∧
    (∀ (r : Record) (t : TailState) (a : Option Anchor), r.index < 2 ^ 64 →
      ((fileStoreAppend emptyFileStore r t a).isOk = true ↔ r.index = 1)) := by
  refine ⟨?_, ?_, ?_⟩
  · intro s r t a
    unfold sqliteStoreAppend
    by_cases h : sqliteMaxIdx s.recs = sub64one r.index
    · rw [if_neg (by simp [h])]
      simp [h]
    · rw [if_pos (by simpa using h)]
      simp [h]
  · intro s r t a hreach hbound hidx
    have hcont := fileReachable_contiguous hreach hbound
    have hlast : getLastIndex s = s.recs.length := getLastIndex_of_range hcont
    have hmax : sqliteMaxIdx s.recs = s.recs.length := maxIdx_of_range hcont
    unfold fileStoreAppend
    by_cases h : getLastIndex s = sub64one r.index
    · rw [if_neg (by simp [h])]
      have hx : sqliteMaxIdx s.recs = sub64one r.index := by omega
      simp [hx]
    · rw [if_pos (by simpa using h)]
      have hx : sqliteMaxIdx s.recs ≠ sub64one r.index := by omega
      simp [hx]
  · intro r t a hidx
    unfold fileStoreAppend
    have hempty : getLastIndex emptyFileStore = 0 := rfl
    by_cases h : r.index = 1
    · rw [if_neg]
      · simp [Except.isOk, Except.toBool, h]
      · rw [hempty, h]
        simp [sub64one]
    · rw [if_pos]
      · simp [Except.isOk, Except.toBool, h]
      · rw [hempty]
        rcases Nat.eq_zero_or_pos r.index with hz | hp
        · rw [hz]
          unfold sub64one
          have : (0 + 2 ^ 64 - 1) % 2 ^ 64 = 2 ^ 64 - 1 :=
            Nat.mod_eq_of_lt (by omega)
          omega
        · obtain ⟨j, hj⟩ : ∃ j, r.index = j + 1 := ⟨r.index - 1, by omega⟩
          rw [hj, sub64one_succ (by omega)]
          omega

/-- C7 witness: the empty (reachable) file store rejects an append at
index 5 as non-contiguous, exercising the reachability hypotheses. -/
theorem c7_non_contiguous_append_witness :
    fileStoreAppend emptyFileStore ⟨5, 0, [1], zero32, zero32⟩
      ⟨5, zero32, zero32⟩ none = .error .nonContiguous :=
  (c7_non_contiguous_append.2.1 emptyFileStore ⟨5, 0, [1], zero32, zero32⟩
    ⟨5, zero32, zero32⟩ none FileReachable.empty (by decide)
    (by decide)).mpr (by decide)

theorem verifyChainGo_spec {m : HashModel} (useV : Bool) :
    ∀ (records : List Record) (expect : Nat) (key prev lt0 tag : Bytes),
      records ≠ [] →
      (verifyChainGo m records expect key prev lt0 useV = (tag, none) ↔
       specVerifyChain m records expect key prev useV = .ok tag) := by
  intro records
  induction records with
  | nil => intro _ _ _ _ _ h; exact absurd rfl h
  | cons r rest ih =>
    intro expect key prev lt0 tag _
    simp only [verifyChainGo, specVerifyChain, fwdKey]
    by_cases hidx : r.index = expect + 1
    · rw [if_neg (not_ne_iff.mpr hidx), if_neg (not_ne_iff.mpr hidx)]
      by_cases hct : constantTimeEqual
          (if isZero32 prev then
            htag m (mac m (m.sha256 key) [be64 r.index, be64 (tsToU64 r.ts), r.msg])
          else
            fold m prev (mac m (m.sha256 key) [be64 r.index, be64 (tsToU64 r.ts), r.msg]))
          (if useV then r.tagV else r.tagT) = true
      · rw [if_neg (not_not_intro hct), if_neg (not_not_intro hct)]
        cases rest with
        | nil =>
          simp only [verifyChainGo, specVerifyChain]
          constructor
          · intro h
            rw [(Prod.mk.injEq _ _ _ _).mp h |>.1]
          · intro h
            rw [Except.ok.inj h]
        | cons f fs => exact ih _ _ _ _ _ (by simp)
      · rw [if_pos hct, if_pos hct]
        constructor
        · intro h
          exact absurd ((Prod.mk.injEq _ _ _ _).mp h).2 (by simp)
        · intro h
          cases h
    · rw [if_pos hidx, if_pos hidx]
      constructor
      · intro h
        exact absurd ((Prod.mk.injEq _ _ _ _).mp h).2 (by simp)
      · intro h
        cases h

set_option maxRecDepth 100000 in
/-- C8 counterexample: on an empty record sequence the chain verifier
returns the zero array, not the starting aggregate (its `lastTag` named
return is never assigned), so with a nonzero starting tag the claimed
return value is wrong; consequently `VerifyFromAnchor` on an anchor
that already sits at the tail index fails with the tag-mismatch error
instead of succeeding. -/
theorem c8_counterexample :
    verifyFrom mt [] 3 a0c [7, 7] ≠ (([7, 7] : Bytes), none) ∧
    verifyFrom mt [] 3 a0c [7, 7] = (zero32, none) ∧
    tailAnchor.index = 1 ∧ anchoredStore.tail = some
      ⟨1, (anchoredStore.recs.headD default).tagV,
          (anchoredStore.recs.headD default).tagT⟩ ∧
    verifyFromAnchor mt anchoredStore tailAnchor =
      .error (.chain .tagMismatch) := by
  refine ⟨by decide, by decide, by decide, by decide, by decide⟩

/-- C8 amended: the chain verifier returns the running aggregate
(`prev`, as the spec-modelled `specVerifyChain` does) for every
*nonempty* record sequence, but on an empty sequence it returns the
zero array rather than the starting aggregate; hence
`VerifyFromAnchor` with an anchor already at the tail index (no
records after it) fails with the tag-mismatch error whenever the
stored tail tag is nonzero, instead of succeeding. -/
theorem c8_verifier_returns_running_aggregate :
    (∀ (m : HashModel) (records : List Record) (startIdx : Nat)
       (kStart tStart tag : Bytes) (useV : Bool), records ≠ [] →
       (verifyChain m records startIdx kStart tStart useV = (tag, none) ↔
        specVerifyChain m records startIdx kStart tStart useV = .ok tag)) ∧
    (∀ (m : HashModel) (startIdx : Nat) (kStart tStart : Bytes) (useV : Bool),
       verifyChain m [] startIdx kStart tStart useV = (zero32, none) ∧
       specVerifyChain m [] startIdx kStart tStart useV = .ok tStart) ∧
    (∀ (m : HashModel) (s : FileStoreState) (a : Anchor) (t : TailState),
       s.tail = some t → fileStoreIter s (a.index + 1) = [] →
       t.tagV ≠ zero32 →
       verifyFromAnchor m s a = .error (.chain .tagMismatch)) := by
  refine ⟨?_, ?_, ?_⟩
  · intro m records startIdx kStart tStart tag useV hne
    exact verifyChainGo_spec useV records startIdx kStart tStart zero32 tag hne
  · intro m startIdx kStart tStart useV
    exact ⟨rfl, rfl⟩
  · intro m s a t htail hiter htagne
    have hempty : verifyFrom m [] a.index a.key a.tagV = (zero32, none) := rfl
    simp only [verifyFromAnchor, hiter, hempty, htail]
    rw [if_neg]
    intro hcon
    exact htagne (hmacEqual_iff.mp hcon).symm

set_option maxRecDepth 100000 in
/-- C8 amended witness: concrete instantiations — a one-record
sequence where code and spec verifier agree, and the concrete
anchored store where the anchor sits at the tail. -/
theorem c8_verifier_returns_running_aggregate_witness :
    (verifyChain mt anchoredStore.recs 0 a0c zero32 true =
        ((anchoredStore.recs.headD default).tagV, none) ↔
      specVerifyChain mt anchoredStore.recs 0 a0c zero32 true =
        .ok (anchoredStore.recs.headD default).tagV) ∧
    verifyFromAnchor mt anchoredStore tailAnchor =
      .error (.chain .tagMismatch) :=
  ⟨c8_verifier_returns_running_aggregate.1 mt anchoredStore.recs 0 a0c zero32
      (anchoredStore.recs.headD default).tagV true (by decide),
   c8_verifier_returns_running_aggregate.2.2 mt anchoredStore tailAnchor
      ⟨1, (anchoredStore.recs.headD default).tagV,
          (anchoredStore.recs.headD default).tagT⟩
      (by decide) (by decide) (by decide)⟩

/-- C9 counterexample: a well-formed native-encoding verify request
whose verification fails gets a 200 response whose JSON payload has
exactly the fields `status`, `log_id`, `verified` — `verified` is
false but no `error_message` field is written (the handler's error
string is dropped by the JSON branch of `encodeVerifyResponse`). -/
theorem c9_counterexample :
    finalVerify mt newTrustedServer "L" [] = .error .notRegistered ∧
    handleVerify mt false newTrustedServer "L" [] =
      ⟨200, .jsonPayload [("status", .s "verified"), ("log_id", .s "L"),
                          ("verified", .b false)]⟩ ∧
    ("error_message" ∉ ["status", "log_id", "verified"]) := by
  refine ⟨rfl, rfl, by decide⟩

/-- C9 amended: the verify endpoint always answers 200 for well-formed
requests, and on verification failure the payload carries
`verified = false` in both encodings; the descriptive `error_message`
however appears only in the structured (protobuf) encoding — the
native JSON payload consists of exactly `status`, `log_id`,
`verified`, with no error message. -/
theorem c9_verify_endpoint_responses (m : HashModel)
    (ts : TrustedServerState) (logID : String) (records : List Record) :
    (∀ isProto, (handleVerify m isProto ts logID records).status = 200) ∧
    (∀ e, finalVerify m ts logID records = .error e →
      handleVerify m true ts logID records =
        ⟨200, .protoPayload false (finalVerifyErrMessage e)⟩ ∧
      handleVerify m false ts logID records =
        ⟨200, .jsonPayload [("status", .s "verified"), ("log_id", .s logID),
                            ("verified", .b false)]⟩) := by
  constructor
  · intro isProto
    unfold handleVerify encodeVerifyResponse
    cases finalVerify m ts logID records <;> cases isProto <;> rfl
  · intro e he
    unfold handleVerify encodeVerifyResponse
    rw [he]
    exact ⟨rfl, rfl⟩

/-- C9 amended witness: the concrete failing request of the
counterexample, pushed through the amended theorem. -/
theorem c9_verify_endpoint_responses_witness :
    (handleVerify mt true newTrustedServer "L" []).status = 200 ∧
    handleVerify mt true newTrustedServer "L" [] =
      ⟨200, .protoPayload false (finalVerifyErrMessage .notRegistered)⟩ ∧
    handleVerify mt false newTrustedServer "L" [] =
      ⟨200, .jsonPayload [("status", .s "verified"), ("log_id", .s "L"),
                          ("verified", .b false)]⟩ :=
  ⟨(c9_verify_endpoint_responses mt newTrustedServer "L" []).1 true,
   ((c9_verify_endpoint_responses mt newTrustedServer "L" []).2
      FinalVerifyErr.notRegistered rfl).1,
   ((c9_verify_endpoint_responses mt newTrustedServer "L" []).2
      FinalVerifyErr.notRegistered rfl).2⟩

/-- C6: `FinalVerify` checks its conditions in the specified order and
fails with the error of the first violated one — it equals the
first-failure evaluation of the ordered check list (missing
commitment, missing open message, empty records, first-record index
mismatch, missing `START`, opening replays, opening tag mismatch
against the open message, missing closure — the `LogNotClosed`
sentinel —, last-record index mismatch, missing `CLOSE`, T-chain
replay, final T-chain tag mismatch), and returns ok exactly when every
condition holds; `LogNotClosed` is distinct from every tag-mismatch
error. -/
theorem c6_final_verify_ordered_checks :
    (∀ (m : HashModel) (ts : TrustedServerState) (logID : String)
       (records : List Record),
      finalVerify m ts logID records =
        firstFailure (finalVerifyChecks m ts logID records)) ∧
    FinalVerifyErr.logNotClosed ≠ FinalVerifyErr.openingTagMismatch ∧
    FinalVerifyErr.logNotClosed ≠ FinalVerifyErr.finalTagMismatch ∧
    (∀ e, FinalVerifyErr.logNotClosed ≠ FinalVerifyErr.tChainReplay e) := by
  refine ⟨?_, by simp, by simp, fun e => by simp⟩
  intro m ts logID records
  unfold finalVerify finalVerifyChecks
  cases hc : ts.commitments.lookup logID with
  | none => simp [hc, firstFailure]
  | some commit =>
  cases ho : ts.opens.lookup logID with
  | none => simp [hc, ho, firstFailure]
  | some openM =>
  cases records with
  | nil => simp [hc, ho, firstFailure]
  | cons firstRec rest =>
  by_cases h4 : firstRec.index = openM.firstIndex
  case neg =>
    have h4b : (firstRec.index == openM.firstIndex) = false := by simp [h4]
    simp [hc, ho, h4, h4b, firstFailure]
  case pos =>
  by_cases h5 : firstRec.msg = START
  case neg =>
    have h5b : (firstRec.msg == START) = false := by simp [h5]
    simp [hc, ho, h4, h5, h5b, firstFailure]
  case pos =>
  cases hvp : verifyFrom m [firstRec] 0 commit.keyA0 zero32 with
  | mk firstV eV =>
  cases eV with
  | some e => simp [hc, ho, h4, h5, hvp, firstFailure]
  | none =>
  cases htp : verifyFromTrusted m [firstRec] 0 commit.keyB0 zero32 with
  | mk firstT eT =>
  cases eT with
  | some e => simp [hc, ho, h4, h5, hvp, htp, firstFailure]
  | none =>
  by_cases hA : hmacEqual firstV openM.firstTagV = true
  case neg => simp [hc, ho, h4, h5, hvp, htp, hA, firstFailure]
  case pos =>
  by_cases hB : hmacEqual firstT openM.firstTagT = true
  case neg => simp [hc, ho, h4, h5, hvp, htp, hA, hB, firstFailure]
  case pos =>
  cases hcl : ts.closures.lookup logID with
  | none => simp [hc, ho, h4, h5, hvp, htp, hA, hB, hcl, firstFailure]
  | some closeM =>
  cases hl : (firstRec :: rest).getLast? with
  | none => simp at hl
  | some lastRec =>
  by_cases h10 : lastRec.index = closeM.finalIndex
  case neg =>
    have h10b : (lastRec.index == closeM.finalIndex) = false := by simp [h10]
    simp [hc, ho, h4, h5, hvp, htp, hA, hB, hcl, hl, h10, h10b, firstFailure,
      verifyCloseMessage]
  case pos =>
  by_cases h11 : lastRec.msg = CLOSE
  case neg =>
    have h11b : (lastRec.msg == CLOSE) = false := by simp [h11]
    simp [hc, ho, h4, h5, hvp, htp, hA, hB, hcl, hl, h10, h11, h11b,
      firstFailure, verifyCloseMessage]
  case pos =>
  cases hfp : verifyFromTrusted m (firstRec :: rest) 0 commit.keyB0 zero32 with
  | mk finalT eF =>
  cases eF with
  | some e =>
    simp [hc, ho, h4, h5, hvp, htp, hA, hB, hcl, hl, h10, h11, hfp,
      firstFailure, verifyCloseMessage]
  | none =>
  by_cases hF : hmacEqual finalT closeM.finalTagT = true
  case neg =>
    simp [hc, ho, h4, h5, hvp, htp, hA, hB, hcl, hl, h10, h11, hfp, hF,
      firstFailure, verifyCloseMessage]
  case pos =>
    simp [hc, ho, h4, h5, hvp, htp, hA, hB, hcl, hl, h10, h11, hfp, hF,
      firstFailure, verifyCloseMessage]

end SecureLog
